import Mathlib

/-!
Shallow embedding of the SchildCafe coffee-machine core (the `Machine`
type with `StartJob`, `RetrieveJob`, `History` and the completion timer
`awaitCompletion`, plus `generateJobID`).

Timestamps are natural numbers.  The Go methods mutate the receiver under
a mutex; here each operation maps a machine to the updated machine
together with its `Job`-or-error result, and the detached completion
timer is a separate `fire` event.  The outcome of the `crypto/rand`
entropy source consulted by `generateJobID` is passed in explicitly as an
`Except` value, and the byte-level post-processing of `generateJobID`
itself is embedded separately over an arbitrary 16-byte input.
-/

deriving instance DecidableEq for Except

namespace CoffeePot

/-- The eight supported products (`supportedProducts` in the source). -/
def supportedProducts : List String :=
  ["COFFEE", "STRONG_COFFEE", "CAPPUCCINO", "COFFEE_WITH_MILK",
   "ESPRESSO", "ESPRESSO_CHOCOLATE", "KAKAO", "HOT_WATER"]

/-- Membership in the supported-product set (`Product.valid`). -/
def productValid (p : String) : Bool := supportedProducts.contains p

/-- Machine state from the source: Available / Brewing / Blocked. -/
inductive MachineState where
  | StateAvailable
  | StateBrewing
  | StateBlocked
deriving DecidableEq, Repr

export MachineState (StateAvailable StateBrewing StateBlocked)

/-- A brew job (`Job` in the source); `jobRetrieved` is `none` until the
job is successfully retrieved. -/
structure Job where
  jobID : String
  product : String
  jobStarted : Nat
  jobReady : Nat
  jobRetrieved : Option Nat
deriving DecidableEq, Repr

/-- The error values of the source (`ErrMachineBusy`, ...); `genFailure`
stands for the wrapped entropy-source error of `generateJobID`. -/
inductive MErr where
  | machineBusy
  | unsupportedProduct
  | jobNotFound
  | jobNotReady
  | jobAlreadyRetrieved
  | jobIDExists
  | genFailure
deriving DecidableEq, Repr

/-- The machine (`Machine` in the source): state, the job map (as an
association list), the history of job ids in admission order, and the id
of the currently tracked active job (`""` when none). -/
structure Machine where
  state : MachineState
  jobs : List (String × Job)
  history : List String
  currentJob : String
deriving DecidableEq, Repr

/-- Lookup in the job map (`m.jobs[jobID]`). -/
def findJob : List (String × Job) → String → Option Job
  | [], _ => none
  | e :: es, id => if e.1 = id then some e.2 else findJob es id

/-- In-place update of a job's `jobRetrieved` field inside the map
(`job.JobRetrieved = &now` through the stored pointer). -/
def setRetrieved : List (String × Job) → String → Nat → List (String × Job)
  | [], _, _ => []
  | e :: es, id, t =>
      (if e.1 = id then (e.1, { e.2 with jobRetrieved := some t }) else e)
        :: setRetrieved es id t

/-- The freshly constructed machine (`NewMachine`): idle, with empty
job map and history. -/
def initMachine : Machine :=
  { state := StateAvailable, jobs := [], history := [], currentJob := "" }

/-- Read of the current machine state (`Machine.Status`). -/
def status (m : Machine) : MachineState := m.state

/-- Whether a new job can be accepted (`Machine.Ready`). -/
def ready (m : Machine) : Bool := m.state = StateAvailable

/-- Admission (`Machine.StartJob`).  Here `gen` is the outcome of the
`generateJobID`
call, consulted only when `jobID` is empty; `dur` is the brew duration
produced by `brewTimeFn`; `now` is the current time. -/
def startJob (m : Machine) (product jobID : String) (gen : Except Unit String)
    (now dur : Nat) : Machine × Except MErr Job :=
  if productValid product = false then (m, Except.error MErr.unsupportedProduct)
  else if m.state = StateAvailable then
    match (if jobID = "" then gen else Except.ok jobID) with
    | Except.error _ => (m, Except.error MErr.genFailure)
    | Except.ok id =>
      if (findJob m.jobs id).isSome then (m, Except.error MErr.jobIDExists)
      else
        let job : Job :=
          { jobID := id, product := product, jobStarted := now,
            jobReady := now + dur, jobRetrieved := none }
        ({ m with jobs := (id, job) :: m.jobs, history := m.history ++ [id],
                  currentJob := id, state := StateBrewing },
         Except.ok job)
  else (m, Except.error MErr.machineBusy)

/-- Retrieval (`Machine.RetrieveJob`) at time `now`. -/
def retrieveJob (m : Machine) (jobID : String) (now : Nat) :
    Machine × Except MErr Job :=
  match findJob m.jobs jobID with
  | none => (m, Except.error MErr.jobNotFound)
  | some job =>
    if job.jobRetrieved.isSome then (m, Except.error MErr.jobAlreadyRetrieved)
    else if now < job.jobReady then (m, Except.error MErr.jobNotReady)
    else
      let job' := { job with jobRetrieved := some now }
      let jobs' := setRetrieved m.jobs jobID now
      if m.currentJob = jobID then
        ({ m with jobs := jobs', currentJob := "", state := StateAvailable },
         Except.ok job')
      else ({ m with jobs := jobs' }, Except.ok job')

/-- The body of `Machine.awaitCompletion` after the sleep: if the job
still exists and has not been retrieved, the machine becomes Blocked. -/
def awaitFire (m : Machine) (jobID : String) : Machine :=
  match findJob m.jobs jobID with
  | some job => if job.jobRetrieved.isSome then m else { m with state := StateBlocked }
  | none => m

/-- The guard tested by `awaitCompletion` before it transitions:
the job exists in the map and its `jobRetrieved` is still nil. -/
def fireGuard (m : Machine) (jobID : String) : Bool :=
  match findJob m.jobs jobID with
  | some job => !job.jobRetrieved.isSome
  | none => false

/-- History (`Machine.History`): one snapshot per history entry, in admission
order, skipping ids missing from the map (none ever are). -/
def historyJobs (m : Machine) : List Job := m.history.filterMap (findJob m.jobs)

/-- An interaction event against the machine: an admission attempt, a
retrieval attempt, or the firing of a job's completion timer.  Each
carries the wall-clock time at which it runs (the firing time of a
timer is recorded for the temporal claims; `awaitFire` itself does not
read it). -/
inductive Event where
  | start (product jobID : String) (gen : Except Unit String) (now dur : Nat)
  | retrieve (jobID : String) (now : Nat)
  | fire (jobID : String) (now : Nat)
deriving DecidableEq, Repr

/-- The state transformation of one event (results discarded). -/
def applyEvent (m : Machine) (e : Event) : Machine :=
  match e with
  | Event.start p id g now dur => (startJob m p id g now dur).1
  | Event.retrieve id now => (retrieveJob m id now).1
  | Event.fire id _ => awaitFire m id

/-- Run a list of events from the freshly constructed machine. -/
def runE (es : List Event) : Machine := es.foldl applyEvent initMachine

/-- Admissible entropy outcomes: `generateJobID` never returns an empty
string on success (it always produces 36 characters). -/
def genOk : Except Unit String → Bool
  | Except.ok s => !(s = "")
  | Except.error _ => true

/-- Event admissibility: any `start` event's entropy outcome is one the
real generator could produce. -/
def eventGenOk : Event → Bool
  | Event.start _ _ g _ _ => genOk g
  | _ => true

/-- Trace admissibility for the untimed invariants. -/
def traceGenOk (es : List Event) : Bool := es.all eventGenOk

/-- The wall-clock time of an event. -/
def eventTime : Event → Nat
  | Event.start _ _ _ n _ => n
  | Event.retrieve _ n => n
  | Event.fire _ n => n

/-- Event times are nondecreasing, starting from lower bound `t`. -/
def timesMono : Nat → List Event → Bool
  | _, [] => true
  | t, e :: es => decide (t ≤ eventTime e) && timesMono (eventTime e) es

/-- A well-formed timed trace whose events all happen at or before `t`. -/
def traceOk (es : List Event) (t : Nat) : Bool :=
  traceGenOk es && timesMono 0 es && es.all (fun e => eventTime e ≤ t)

/-- Invariants of the job map and history that hold on every run,
whatever the entropy outcomes: stored jobs carry their own key as id,
history entries resolve in the map, the map's keys are distinct, and a
set `jobRetrieved` stamp is never earlier than the job's `jobReady`. -/
structure BasicInv (m : Machine) : Prop where
  keyMatches : ∀ p ∈ m.jobs, (p : String × Job).2.jobID = p.1
  histFound : ∀ id ∈ m.history, (findJob m.jobs id).isSome = true
  nodupKeys : (m.jobs.map Prod.fst).Nodup
  retrievedReady : ∀ p ∈ m.jobs, ∀ tr : Nat,
    (p : String × Job).2.jobRetrieved = some tr → p.2.jobReady ≤ tr

/-- Invariants tied to the active-job tracking, valid for traces whose
entropy outcomes are admissible: job ids are nonempty, every job other
than the tracked one is already retrieved, an Available machine tracks
no job, and a tracked job exists and is unretrieved. -/
structure GenInv (m : Machine) : Prop where
  keysNonempty : ∀ p ∈ m.jobs, (p : String × Job).1 ≠ ""
  othersRetrieved : ∀ p ∈ m.jobs,
    (p : String × Job).1 ≠ m.currentJob → p.2.jobRetrieved.isSome = true
  availClear : m.state = StateAvailable → m.currentJob = ""
  currentActive : m.currentJob ≠ "" →
    ∃ j, findJob m.jobs m.currentJob = some j ∧ j.jobRetrieved = none


/-- All `jobRetrieved` stamps in the machine are at most `t`. -/
def stampsLE (m : Machine) (t : Nat) : Prop :=
  ∀ p ∈ m.jobs, ∀ tr : Nat, (p : String × Job).2.jobRetrieved = some tr → tr ≤ t

/-- Whether an event is the firing of job `J`'s completion timer. -/
def isFireOf (J : String) : Event → Bool
  | Event.fire id _ => decide (id = J)
  | _ => false

/-- Events that can occur during job `J`'s Brewing/ReadyUnretrieved span
(between its admission and its first successful retrieval): any admission
attempt, any retrieval of a different job, retrievals of `J` strictly
before its Ready-at time `ready`, timer firings of other jobs, and the
firing of `J`'s own timer, which the sleep schedules at `ready`. -/
def spanEvent (J : String) (ready : Nat) : Event → Bool
  | Event.start _ _ _ _ _ => true
  | Event.retrieve id now => decide (id ≠ J) || decide (now < ready)
  | Event.fire id now => decide (id ≠ J) || decide (now = ready)

/-- The proposition that `job` is the machine's tracked active job:
unretrieved, present in
the map, tracked by `currentJob`, and every other job is retrieved. -/
def ActiveJob (m : Machine) (job : Job) : Prop :=
  m.currentJob = job.jobID ∧ job.jobRetrieved = none ∧
  findJob m.jobs job.jobID = some job ∧
  ∀ p ∈ m.jobs, (p : String × Job).1 ≠ job.jobID → p.2.jobRetrieved.isSome = true

/-- The identifiers of the successful admissions of a trace run from
machine `m`, in admission order. -/
def admittedIDs : Machine → List Event → List String
  | _, [] => []
  | m, e :: es =>
    match e with
    | Event.start p id g now dur =>
      match startJob m p id g now dur with
      | (m', Except.ok job) => job.jobID :: admittedIDs m' es
      | (m', Except.error _) => admittedIDs m' es
    | _ => admittedIDs (applyEvent m e) es

/-- Lower-case hexadecimal digit character for `n < 16` (the `%x` verb). -/
def hexDigit (n : Nat) : Char :=
  if n < 10 then Char.ofNat (48 + n) else Char.ofNat (87 + n)

/-- The `%02x` formatting of one byte. -/
def hexByte (n : Nat) : String :=
  String.mk [hexDigit (n % 256 / 16), hexDigit (n % 256 % 16)]

/-- The generator `generateJobID` on an arbitrary 16-byte entropy read
`b`: bytes 6
and 8 get their version/variant bits forced (`(b[6] & 0x0f) | 0x40`,
`(b[8] & 0x3f) | 0x80`) and the result is formatted as five dash-joined
hex groups of 4, 2, 2, 2 and 6 bytes. -/
def generateJobID (b : Fin 16 → Nat) : String :=
  (hexByte (b 0) ++ hexByte (b 1) ++ hexByte (b 2) ++ hexByte (b 3)) ++ "-" ++
  (hexByte (b 4) ++ hexByte (b 5)) ++ "-" ++
  (hexByte (Nat.lor (Nat.land (b 6) 15) 64) ++ hexByte (b 7)) ++ "-" ++
  (hexByte (Nat.lor (Nat.land (b 8) 63) 128) ++ hexByte (b 9)) ++ "-" ++
  (hexByte (b 10) ++ hexByte (b 11) ++ hexByte (b 12) ++ hexByte (b 13) ++
   hexByte (b 14) ++ hexByte (b 15))

/-- A lower-case hexadecimal digit character. -/
def isHexChar (c : Char) : Bool := "0123456789abcdef".data.contains c

theorem findJob_eq_some_mem {jobs : List (String × Job)} {id : String} {j : Job}
    (h : findJob jobs id = some j) : (id, j) ∈ jobs := by
  induction jobs with
  | nil => simp [findJob] at h
  | cons e es ih =>
    by_cases he : e.1 = id
    · rw [findJob, if_pos he] at h
      obtain rfl : e.2 = j := Option.some_inj.mp h
      subst he
      exact List.mem_cons_self _ _
    · rw [findJob, if_neg he] at h
      exact List.mem_cons_of_mem _ (ih h)

theorem findJob_eq_none_iff {jobs : List (String × Job)} {id : String} :
    findJob jobs id = none ↔ id ∉ jobs.map Prod.fst := by
  induction jobs with
  | nil => simp [findJob]
  | cons e es ih =>
    by_cases he : e.1 = id
    · simp [findJob, he]
    · simp [findJob, he, ih, Ne.symm he]

theorem setRetrieved_map_fst (jobs : List (String × Job)) (id : String) (t : Nat) :
    (setRetrieved jobs id t).map Prod.fst = jobs.map Prod.fst := by
  induction jobs with
  | nil => rfl
  | cons e es ih =>
    by_cases he : e.1 = id <;> simp [setRetrieved, he, ih]

theorem mem_setRetrieved {jobs : List (String × Job)} {id : String} {t : Nat}
    {p' : String × Job} (h : p' ∈ setRetrieved jobs id t) :
    ∃ p ∈ jobs,
      p' = (if p.1 = id then (p.1, { p.2 with jobRetrieved := some t }) else p) := by
  induction jobs with
  | nil => simp [setRetrieved] at h
  | cons e es ih =>
    rw [setRetrieved] at h
    rcases List.mem_cons.mp h with h1 | h2
    · exact ⟨e, List.mem_cons_self _ _, h1⟩
    · obtain ⟨p, hp, hp'⟩ := ih h2
      exact ⟨p, List.mem_cons_of_mem _ hp, hp'⟩

theorem findJob_setRetrieved_self (jobs : List (String × Job)) (id : String) (t : Nat) :
    findJob (setRetrieved jobs id t) id
      = (findJob jobs id).map (fun j => { j with jobRetrieved := some t }) := by
  induction jobs with
  | nil => rfl
  | cons e es ih =>
    by_cases he : e.1 = id <;> simp [setRetrieved, findJob, he, ih]

theorem findJob_setRetrieved_ne (jobs : List (String × Job)) {id id' : String}
    (t : Nat) (h : id' ≠ id) :
    findJob (setRetrieved jobs id t) id' = findJob jobs id' := by
  induction jobs with
  | nil => rfl
  | cons e es ih =>
    by_cases he : e.1 = id
    · simp [setRetrieved, findJob, he, Ne.symm h, ih]
    · by_cases he' : e.1 = id' <;> simp [setRetrieved, findJob, he, he', h, ih]

theorem findJob_nodup_eq {jobs : List (String × Job)} {id : String} {j : Job}
    {p : String × Job} (hnd : (jobs.map Prod.fst).Nodup)
    (hf : findJob jobs id = some j) (hp : p ∈ jobs) (hk : p.1 = id) : p.2 = j := by
  induction jobs with
  | nil => simp at hp
  | cons e es ih =>
    have hnd' : (e.1 :: es.map Prod.fst).Nodup := by simpa using hnd
    rcases List.mem_cons.mp hp with rfl | hmem
    · rw [findJob, if_pos hk] at hf
      exact Option.some_inj.mp hf
    · by_cases he : e.1 = id
      · exfalso
        have hmem' : id ∈ es.map Prod.fst := by
          rw [← hk]; exact List.mem_map_of_mem Prod.fst hmem
        rw [he] at hnd'
        exact (List.nodup_cons.mp hnd').1 hmem'
      · rw [findJob, if_neg he] at hf
        exact ih (List.nodup_cons.mp hnd').2 hf hmem

theorem startJob_spec (m : Machine) (p id : String) (g : Except Unit String)
    (now dur : Nat) :
    (∃ err : MErr, startJob m p id g now dur = (m, Except.error err)) ∨
    ∃ nid : String,
      (if id = "" then g else Except.ok id) = Except.ok nid ∧
      productValid p = true ∧ m.state = StateAvailable ∧
      findJob m.jobs nid = none ∧
      startJob m p id g now dur =
        ({ state := StateBrewing,
           jobs := (nid, { jobID := nid, product := p, jobStarted := now,
                           jobReady := now + dur, jobRetrieved := none }) :: m.jobs,
           history := m.history ++ [nid],
           currentJob := nid },
         Except.ok { jobID := nid, product := p, jobStarted := now,
                     jobReady := now + dur, jobRetrieved := none }) := by
  unfold startJob
  by_cases hv : productValid p = false
  · rw [if_pos hv]; left; exact ⟨MErr.unsupportedProduct, rfl⟩
  · rw [if_neg hv]
    by_cases hs : m.state = StateAvailable
    · rw [if_pos hs]
      cases hg : (if id = "" then g else Except.ok id) with
      | error e => left; exact ⟨MErr.genFailure, rfl⟩
      | ok nid =>
        dsimp only
        by_cases hex : (findJob m.jobs nid).isSome
        · rw [if_pos hex]; left; exact ⟨MErr.jobIDExists, rfl⟩
        · rw [if_neg hex]
          right
          refine ⟨nid, rfl, ?_, hs, Option.not_isSome_iff_eq_none.mp hex, rfl⟩
          revert hv; cases productValid p <;> simp
    · rw [if_neg hs]; left; exact ⟨MErr.machineBusy, rfl⟩

theorem retrieveJob_spec (m : Machine) (id : String) (now : Nat) :
    (∃ err : MErr, retrieveJob m id now = (m, Except.error err)) ∨
    ∃ job : Job, findJob m.jobs id = some job ∧ job.jobRetrieved = none ∧
      job.jobReady ≤ now ∧
      retrieveJob m id now =
        ((if m.currentJob = id then
            { m with jobs := setRetrieved m.jobs id now, currentJob := "",
                     state := StateAvailable }
          else { m with jobs := setRetrieved m.jobs id now }),
         Except.ok { job with jobRetrieved := some now }) := by
  unfold retrieveJob
  cases hf : findJob m.jobs id with
  | none => left; exact ⟨MErr.jobNotFound, rfl⟩
  | some job =>
    dsimp only
    by_cases hr : job.jobRetrieved.isSome
    · rw [if_pos hr]; left; exact ⟨MErr.jobAlreadyRetrieved, rfl⟩
    · rw [if_neg hr]
      by_cases hn : now < job.jobReady
      · rw [if_pos hn]; left; exact ⟨MErr.jobNotReady, rfl⟩
      · rw [if_neg hn]
        right
        refine ⟨job, rfl, Option.not_isSome_iff_eq_none.mp hr, Nat.not_lt.mp hn, ?_⟩
        by_cases hc : m.currentJob = id <;> simp [hc]

theorem awaitFire_spec (m : Machine) (id : String) :
    awaitFire m id = m ∨ awaitFire m id = { m with state := StateBlocked } := by
  unfold awaitFire
  cases findJob m.jobs id with
  | none => left; rfl
  | some job =>
    dsimp only
    by_cases hr : job.jobRetrieved.isSome
    · rw [if_pos hr]; left; rfl
    · rw [if_neg hr]; right; rfl

/-- Every member of `setRetrieved jobs id t` comes from a member of
`jobs` with the same key: either the updated copy of a key-`id` entry,
or an untouched entry whose key differs from `id`. -/
theorem mem_setRetrieved_cases {jobs : List (String × Job)} {id : String} {t : Nat}
    {q : String × Job} (hq : q ∈ setRetrieved jobs id t) :
    ∃ p ∈ jobs, q.1 = p.1 ∧
      ((p.1 = id ∧ q.2 = { p.2 with jobRetrieved := some t }) ∨
       ((p : String × Job).1 ≠ id ∧ q = p)) := by
  obtain ⟨p, hp, hq'⟩ := mem_setRetrieved hq
  by_cases hpid : p.1 = id
  · rw [if_pos hpid] at hq'
    exact ⟨p, hp, by rw [hq'], Or.inl ⟨hpid, by rw [hq']⟩⟩
  · rw [if_neg hpid] at hq'
    exact ⟨p, hp, by rw [hq'], Or.inr ⟨hpid, hq'⟩⟩

theorem basicInv_setRetrieved (m : Machine) (id : String) (now : Nat) (job : Job)
    (h : BasicInv m) (hf : findJob m.jobs id = some job) (hready : job.jobReady ≤ now)
    (s : MachineState) (cj : String) :
    BasicInv { state := s, jobs := setRetrieved m.jobs id now,
               history := m.history, currentJob := cj } := by
  constructor
  · intro q hq
    obtain ⟨p, hp, hkey, hcase⟩ := mem_setRetrieved_cases hq
    rcases hcase with ⟨hpid, hq2⟩ | ⟨hpid, hq2⟩
    · rw [hq2, hkey]
      exact h.keyMatches p hp
    · rw [hq2]
      exact h.keyMatches p hp
  · intro hid hmem
    by_cases hh : hid = id
    · subst hh
      rw [findJob_setRetrieved_self, hf]
      rfl
    · rw [findJob_setRetrieved_ne _ _ hh]
      exact h.histFound hid hmem
  · rw [setRetrieved_map_fst]
    exact h.nodupKeys
  · intro q hq tr htr
    obtain ⟨p, hp, hkey, hcase⟩ := mem_setRetrieved_cases hq
    rcases hcase with ⟨hpid, hq2⟩ | ⟨hpid, hq2⟩
    · rw [hq2] at htr ⊢
      have hpj : p.2 = job := findJob_nodup_eq h.nodupKeys hf hp hpid
      have : now = tr := by simpa using htr
      subst this
      simpa [hpj] using hready
    · rw [hq2] at htr ⊢
      exact h.retrievedReady p hp tr htr

theorem basicInv_start (m : Machine) (p id : String) (g : Except Unit String)
    (now dur : Nat) (h : BasicInv m) : BasicInv ((startJob m p id g now dur).1) := by
  rcases startJob_spec m p id g now dur with ⟨err, heq⟩ | ⟨nid, hgen, hv, hs, hnone, heq⟩
  · rw [heq]; exact h
  · rw [heq]
    constructor
    · intro q hq
      rcases List.mem_cons.mp hq with rfl | hq'
      · rfl
      · exact h.keyMatches q hq'
    · intro hid hmem
      rcases List.mem_append.mp hmem with hold | hnew
      · have hf := h.histFound hid hold
        by_cases hne : nid = hid <;> simp [findJob, hne, hf]
      · have : hid = nid := by simpa using hnew
        subst this
        simp [findJob]
    · simp only [List.map_cons, List.nodup_cons]
      exact ⟨findJob_eq_none_iff.mp hnone, h.nodupKeys⟩
    · intro q hq tr htr
      rcases List.mem_cons.mp hq with rfl | hq'
      · simp at htr
      · exact h.retrievedReady q hq' tr htr

theorem basicInv_retrieve (m : Machine) (id : String) (now : Nat)
    (h : BasicInv m) : BasicInv ((retrieveJob m id now).1) := by
  rcases retrieveJob_spec m id now with ⟨err, heq⟩ | ⟨job, hf, hret, hready, heq⟩
  · rw [heq]; exact h
  · rw [heq]
    by_cases hc : m.currentJob = id
    · rw [if_pos hc]
      exact basicInv_setRetrieved m id now job h hf hready _ _
    · rw [if_neg hc]
      exact basicInv_setRetrieved m id now job h hf hready _ _

theorem basicInv_fire (m : Machine) (id : String) (h : BasicInv m) :
    BasicInv (awaitFire m id) := by
  rcases awaitFire_spec m id with heq | heq <;> rw [heq]
  · exact h
  · exact ⟨h.keyMatches, h.histFound, h.nodupKeys, h.retrievedReady⟩

theorem basicInv_apply (m : Machine) (e : Event) (h : BasicInv m) :
    BasicInv (applyEvent m e) := by
  cases e with
  | start p id g now dur => exact basicInv_start m p id g now dur h
  | retrieve id now => exact basicInv_retrieve m id now h
  | fire id now => exact basicInv_fire m id h

theorem basicInv_foldl (es : List Event) :
    ∀ m : Machine, BasicInv m → BasicInv (es.foldl applyEvent m) := by
  induction es with
  | nil => intro m h; exact h
  | cons e es ih => intro m h; exact ih _ (basicInv_apply m e h)

theorem basicInv_init : BasicInv initMachine := by
  constructor <;> simp [initMachine]

/-- The untimed basic invariant holds after any interaction trace. -/
theorem basicInv_runE (es : List Event) : BasicInv (runE es) :=
  basicInv_foldl es initMachine basicInv_init

theorem genInv_start (m : Machine) (p id : String) (g : Except Unit String)
    (now dur : Nat) (hgok : genOk g = true) (h : GenInv m) :
    GenInv ((startJob m p id g now dur).1) := by
  rcases startJob_spec m p id g now dur with ⟨err, heq⟩ | ⟨nid, hgen, hv, hs, hnone, heq⟩
  · rw [heq]; exact h
  · have hnid : nid ≠ "" := by
      by_cases hid : id = ""
      · rw [if_pos hid] at hgen
        rw [hgen] at hgok
        simpa [genOk] using hgok
      · rw [if_neg hid] at hgen
        obtain rfl : id = nid := by simpa using hgen
        exact hid
    rw [heq]
    constructor
    · intro q hq
      rcases List.mem_cons.mp hq with rfl | hq'
      · exact hnid
      · exact h.keysNonempty q hq'
    · intro q hq hne
      rcases List.mem_cons.mp hq with rfl | hq'
      · exact absurd rfl hne
      · have hcur : m.currentJob = "" := h.availClear hs
        refine h.othersRetrieved q hq' ?_
        rw [hcur]
        exact h.keysNonempty q hq'
    · intro hst
      simp at hst
    · intro _
      refine ⟨{ jobID := nid, product := p, jobStarted := now,
                jobReady := now + dur, jobRetrieved := none }, ?_, rfl⟩
      simp [findJob]

theorem genInv_retrieve (m : Machine) (id : String) (now : Nat)
    (h : GenInv m) : GenInv ((retrieveJob m id now).1) := by
  rcases retrieveJob_spec m id now with ⟨err, heq⟩ | ⟨job, hf, hret, hready, heq⟩
  · rw [heq]; exact h
  · rw [heq]
    by_cases hc : m.currentJob = id
    · rw [if_pos hc]
      constructor
      · intro q hq
        obtain ⟨p, hp, hkey, _⟩ := mem_setRetrieved_cases hq
        rw [hkey]
        exact h.keysNonempty p hp
      · intro q hq hne
        obtain ⟨p, hp, hkey, hcase⟩ := mem_setRetrieved_cases hq
        rcases hcase with ⟨hpid, hq2⟩ | ⟨hpid, hq2⟩
        · rw [hq2]; rfl
        · rw [hq2]
          refine h.othersRetrieved p hp ?_
          rw [hc]
          exact hpid
      · intro _; rfl
      · intro hne; exact absurd rfl hne
    · rw [if_neg hc]
      constructor
      · intro q hq
        obtain ⟨p, hp, hkey, _⟩ := mem_setRetrieved_cases hq
        rw [hkey]
        exact h.keysNonempty p hp
      · intro q hq hne
        obtain ⟨p, hp, hkey, hcase⟩ := mem_setRetrieved_cases hq
        rcases hcase with ⟨hpid, hq2⟩ | ⟨hpid, hq2⟩
        · rw [hq2]; rfl
        · rw [hq2]
          refine h.othersRetrieved p hp ?_
          rw [hkey] at hne
          exact hne
      · intro hst; exact h.availClear hst
      · intro hne
        obtain ⟨j, hj, hjr⟩ := h.currentActive hne
        exact ⟨j, by rw [findJob_setRetrieved_ne _ _ hc]; exact hj, hjr⟩

theorem genInv_fire (m : Machine) (id : String) (h : GenInv m) :
    GenInv (awaitFire m id) := by
  rcases awaitFire_spec m id with heq | heq <;> rw [heq]
  · exact h
  · refine ⟨h.keysNonempty, h.othersRetrieved, ?_, h.currentActive⟩
    intro hst
    simp at hst

theorem genInv_apply (m : Machine) (e : Event) (he : eventGenOk e = true)
    (h : GenInv m) : GenInv (applyEvent m e) := by
  cases e with
  | start p id g now dur => exact genInv_start m p id g now dur (by simpa [eventGenOk] using he) h
  | retrieve id now => exact genInv_retrieve m id now h
  | fire id now => exact genInv_fire m id h

theorem genInv_foldl (es : List Event) :
    ∀ m : Machine, (∀ e ∈ es, eventGenOk e = true) → GenInv m →
      GenInv (es.foldl applyEvent m) := by
  induction es with
  | nil => intro m _ h; exact h
  | cons e es ih =>
    intro m hall h
    exact ih _ (fun x hx => hall x (List.mem_cons_of_mem _ hx))
      (genInv_apply m e (hall e (List.mem_cons_self _ _)) h)

theorem genInv_init : GenInv initMachine := by
  constructor <;> simp [initMachine]

/-- The active-job invariant holds after any admissible trace. -/
theorem genInv_runE (es : List Event) (hok : traceGenOk es = true) :
    GenInv (runE es) :=
  genInv_foldl es initMachine (by simpa [traceGenOk, List.all_eq_true] using hok)
    genInv_init

theorem stampsLE_mono {m : Machine} {t t' : Nat} (h : stampsLE m t) (hle : t ≤ t') :
    stampsLE m t' := fun p hp tr htr => Nat.le_trans (h p hp tr htr) hle

theorem stampsLE_start (m : Machine) (p id : String) (g : Except Unit String)
    (now dur : Nat) {t : Nat} (h : stampsLE m t) :
    stampsLE ((startJob m p id g now dur).1) t := by
  rcases startJob_spec m p id g now dur with ⟨err, heq⟩ | ⟨nid, hgen, hv, hs, hnone, heq⟩
  · rw [heq]; exact h
  · rw [heq]
    intro q hq tr htr
    rcases List.mem_cons.mp hq with rfl | hq'
    · simp at htr
    · exact h q hq' tr htr

theorem stampsLE_retrieve (m : Machine) (id : String) (now : Nat) {t : Nat}
    (h : stampsLE m t) (hle : t ≤ now) :
    stampsLE ((retrieveJob m id now).1) now := by
  have hbase : stampsLE m now := stampsLE_mono h hle
  rcases retrieveJob_spec m id now with ⟨err, heq⟩ | ⟨job, hf, hret, hready, heq⟩
  · rw [heq]; exact hbase
  · rw [heq]
    have hset : stampsLE { m with jobs := setRetrieved m.jobs id now } now := by
      intro q hq tr htr
      obtain ⟨q0, hq0, hkey, hcase⟩ := mem_setRetrieved_cases hq
      rcases hcase with ⟨hqid, hq2⟩ | ⟨hqid, hq2⟩
      · rw [hq2] at htr
        have : now = tr := by simpa using htr
        omega
      · rw [hq2] at htr
        exact hbase q0 hq0 tr htr
    by_cases hc : m.currentJob = id
    · rw [if_pos hc]; exact hset
    · rw [if_neg hc]; exact hset

theorem stampsLE_fire (m : Machine) (id : String) {t : Nat} (h : stampsLE m t) :
    stampsLE (awaitFire m id) t := by
  rcases awaitFire_spec m id with heq | heq <;> rw [heq] <;> exact h

theorem stampsLE_foldl (es : List Event) :
    ∀ (m : Machine) (t0 t : Nat), stampsLE m t0 → timesMono t0 es = true →
      (∀ e ∈ es, eventTime e ≤ t) → t0 ≤ t →
      stampsLE (es.foldl applyEvent m) t := by
  induction es with
  | nil => intro m t0 t h _ _ hle; exact stampsLE_mono h hle
  | cons e es ih =>
    intro m t0 t h hmono hall hle
    have hmono' : t0 ≤ eventTime e ∧ timesMono (eventTime e) es = true := by
      rw [timesMono] at hmono
      constructor
      · have := (Bool.and_eq_true _ _).mp hmono |>.1
        simpa using this
      · exact (Bool.and_eq_true _ _).mp hmono |>.2
    have hstep : stampsLE (applyEvent m e) (eventTime e) := by
      cases e with
      | start p id g now dur =>
        exact stampsLE_start m p id g now dur (stampsLE_mono h hmono'.1)
      | retrieve id now => exact stampsLE_retrieve m id now h hmono'.1
      | fire id now => exact stampsLE_fire m id (stampsLE_mono h hmono'.1)
    exact ih (applyEvent m e) (eventTime e) t hstep hmono'.2
      (fun x hx => hall x (List.mem_cons_of_mem _ hx))
      (hall e (List.mem_cons_self _ _))

/-- Along any well-formed timed trace bounded by `t`, every retrieval
stamp is at most `t`. -/
theorem stampsLE_runE (es : List Event) (t : Nat) (hok : traceOk es t = true) :
    stampsLE (runE es) t := by
  unfold traceOk at hok
  rw [Bool.and_eq_true, Bool.and_eq_true] at hok
  refine stampsLE_foldl es initMachine 0 t ?_ hok.1.2 ?_ (Nat.zero_le t)
  · intro q hq; simp [initMachine] at hq
  · intro e he
    have := (List.all_eq_true.mp hok.2) e he
    simpa using this

/-- C9: for every job in any reachable job set whose Retrieved-at stamp
is set, the stamp is at least the job's Ready-at: a successful Retrieve
assigns Retrieved-at only after checking that the current time is not
before Ready-at, so the inequality holds by construction. -/
theorem retrievedAfterReadyInv (es : List Event) (id : String) (job : Job)
    (tr : Nat) (hfind : findJob (runE es).jobs id = some job)
    (hret : job.jobRetrieved = some tr) :
    job.jobReady ≤ tr :=
  (basicInv_runE es).retrievedReady (id, job) (findJob_eq_some_mem hfind) tr hret

/-- Witness for C9 on a concrete trace: a job admitted at 0 with brew
duration 20 and retrieved at 25 carries stamp 25 ≥ 20. -/
theorem retrievedAfterReadyInvWitness :
    findJob (runE [Event.start "COFFEE" "j1" (Except.ok "g") 0 20,
                   Event.retrieve "j1" 25]).jobs "j1"
      = some { jobID := "j1", product := "COFFEE", jobStarted := 0,
               jobReady := 20, jobRetrieved := some 25 } ∧
    (20 : Nat) ≤ 25 :=
  ⟨by decide,
   retrievedAfterReadyInv
     [Event.start "COFFEE" "j1" (Except.ok "g") 0 20, Event.retrieve "j1" 25]
     "j1"
     { jobID := "j1", product := "COFFEE", jobStarted := 0,
       jobReady := 20, jobRetrieved := some 25 }
     25 (by decide) (by decide)⟩

/-- C5: an Admit of any product outside the supported set, with any
identifier, fails with UnsupportedProduct and leaves the machine — its
state, its job set, and its history length — exactly unchanged. -/
theorem unsupportedProductRejected (m : Machine) (p id : String)
    (g : Except Unit String) (now dur : Nat) (h : productValid p = false) :
    startJob m p id g now dur = (m, Except.error MErr.unsupportedProduct) ∧
    status (startJob m p id g now dur).1 = status m ∧
    (startJob m p id g now dur).1.jobs = m.jobs ∧
    (historyJobs (startJob m p id g now dur).1).length
      = (historyJobs m).length := by
  have he : startJob m p id g now dur = (m, Except.error MErr.unsupportedProduct) := by
    unfold startJob
    rw [if_pos h]
  exact ⟨he, by rw [he], by rw [he], by rw [he]⟩

/-- Witness for C5: the literal scenario Admit(Product("INVALID"), ""). -/
theorem unsupportedProductRejectedWitness :
    productValid "INVALID" = false ∧
    startJob initMachine "INVALID" "" (Except.ok "g") 0 30
      = (initMachine, Except.error MErr.unsupportedProduct) :=
  ⟨by decide,
   (unsupportedProductRejected initMachine "INVALID" "" (Except.ok "g") 0 30
     (by decide)).1⟩

/-- C8: if the entropy source fails while Admit is generating an
identifier (no identifier supplied, machine idle, valid product), the
failure is returned as the call's error, no job is created and nothing
changes; there is no fallback generation scheme. -/
theorem entropyFailurePropagates (m : Machine) (p : String) (u : Unit)
    (now dur : Nat) (hv : productValid p = true)
    (hA : m.state = StateAvailable) :
    startJob m p "" (Except.error u) now dur = (m, Except.error MErr.genFailure) ∧
    (startJob m p "" (Except.error u) now dur).1.jobs = m.jobs ∧
    status (startJob m p "" (Except.error u) now dur).1 = status m ∧
    (startJob m p "" (Except.error u) now dur).1.history = m.history := by
  have he : startJob m p "" (Except.error u) now dur
      = (m, Except.error MErr.genFailure) := by
    unfold startJob
    rw [if_neg (by simp [hv]), if_pos hA]
    simp
  exact ⟨he, by rw [he], by rw [he], by rw [he]⟩

/-- Witness for C8: entropy failure on an idle machine with COFFEE. -/
theorem entropyFailurePropagatesWitness :
    productValid "COFFEE" = true ∧
    startJob initMachine "COFFEE" "" (Except.error ()) 0 30
      = (initMachine, Except.error MErr.genFailure) :=
  ⟨by decide,
   (entropyFailurePropagates initMachine "COFFEE" () 0 30 (by decide) rfl).1⟩

/-- C2: if a Retrieve of a job succeeds (which requires the current time
to be at or past the job's Ready-at) before that job's completion timer
fires, the timer's later firing performs no state transition at all: the
machine is left exactly as the retrieval left it. -/
theorem fireAfterRetrieveNoChange (m m' : Machine) (id : String) (now : Nat)
    (job : Job) (h : retrieveJob m id now = (m', Except.ok job)) :
    awaitFire m' id = m' ∧ status (awaitFire m' id) = status m' := by
  rcases retrieveJob_spec m id now with ⟨err, heq⟩ | ⟨j0, hf, hret, hready, heq⟩
  · rw [h] at heq
    simp at heq
  · rw [h] at heq
    have hA : m' = (if m.currentJob = id then
        { m with jobs := setRetrieved m.jobs id now, currentJob := "",
                 state := StateAvailable }
      else { m with jobs := setRetrieved m.jobs id now }) :=
      congrArg Prod.fst heq
    have hm' : m'.jobs = setRetrieved m.jobs id now := by
      rw [hA]
      by_cases hc : m.currentJob = id <;> simp [hc]
    have hfind : findJob m'.jobs id = some { j0 with jobRetrieved := some now } := by
      rw [hm', findJob_setRetrieved_self, hf]
      rfl
    have hmain : awaitFire m' id = m' := by
      unfold awaitFire
      rw [hfind]
      simp
    exact ⟨hmain, by rw [hmain]⟩

/-- Witness for C2: a job retrieved exactly at its Ready-at time; the
pending timer firing afterwards changes nothing. -/
theorem fireAfterRetrieveNoChangeWitness :
    retrieveJob (runE [Event.start "COFFEE" "j1" (Except.ok "g") 0 20]) "j1" 20
      = ({ state := StateAvailable,
           jobs := [("j1", { jobID := "j1", product := "COFFEE", jobStarted := 0,
                             jobReady := 20, jobRetrieved := some 20 })],
           history := ["j1"], currentJob := "" },
         Except.ok { jobID := "j1", product := "COFFEE", jobStarted := 0,
                     jobReady := 20, jobRetrieved := some 20 }) ∧
    awaitFire { state := StateAvailable,
                jobs := [("j1", { jobID := "j1", product := "COFFEE", jobStarted := 0,
                                  jobReady := 20, jobRetrieved := some 20 })],
                history := ["j1"], currentJob := "" } "j1"
      = { state := StateAvailable,
          jobs := [("j1", { jobID := "j1", product := "COFFEE", jobStarted := 0,
                            jobReady := 20, jobRetrieved := some 20 })],
          history := ["j1"], currentJob := "" } :=
  ⟨by decide,
   (fireAfterRetrieveNoChange (runE [Event.start "COFFEE" "j1" (Except.ok "g") 0 20])
     { state := StateAvailable,
       jobs := [("j1", { jobID := "j1", product := "COFFEE", jobStarted := 0,
                         jobReady := 20, jobRetrieved := some 20 })],
       history := ["j1"], currentJob := "" }
     "j1" 20
     { jobID := "j1", product := "COFFEE", jobStarted := 0,
       jobReady := 20, jobRetrieved := some 20 }
     (by decide)).1⟩

/-- C10: in every reachable state, every job other than the tracked
active job has its Retrieved-at set, and consequently the completion
timer's guard "job exists and is not yet retrieved" holds for a job id
exactly when that id is still the tracked active job. -/
theorem unretrievedIsActiveInv (es : List Event) (hok : traceGenOk es = true) :
    (∀ p ∈ (runE es).jobs,
        (p : String × Job).1 ≠ (runE es).currentJob →
        p.2.jobRetrieved.isSome = true) ∧
    (∀ id : String, id ≠ "" →
        (fireGuard (runE es) id = true ↔ (runE es).currentJob = id)) := by
  have h := genInv_runE es hok
  refine ⟨h.othersRetrieved, ?_⟩
  intro id hid
  constructor
  · intro hg
    unfold fireGuard at hg
    cases hfind : findJob (runE es).jobs id with
    | none => rw [hfind] at hg; simp at hg
    | some j =>
      rw [hfind] at hg
      by_contra hne
      have hmem := findJob_eq_some_mem hfind
      have h2 := h.othersRetrieved (id, j) hmem (fun hx => hne hx.symm)
      simp [h2] at hg
  · intro hcur
    obtain ⟨j, hjf, hjr⟩ := h.currentActive (by rw [hcur]; exact hid)
    rw [hcur] at hjf
    unfold fireGuard
    rw [hjf]
    simp [hjr]

/-- Witness for C10: after one admission the timer guard for the
admitted id holds, via the equivalence with the active-job check. -/
theorem unretrievedIsActiveInvWitness :
    fireGuard (runE [Event.start "COFFEE" "j1" (Except.ok "g") 0 20]) "j1" = true :=
  ((unretrievedIsActiveInv [Event.start "COFFEE" "j1" (Except.ok "g") 0 20]
      (by decide)).2 "j1" (by decide)).mpr (by decide)

theorem history_retrieve (m : Machine) (id : String) (now : Nat) :
    ((retrieveJob m id now).1).history = m.history := by
  rcases retrieveJob_spec m id now with ⟨err, heq⟩ | ⟨job, hf, hret, hready, heq⟩ <;>
    rw [heq]
  by_cases hc : m.currentJob = id <;> simp [hc]

theorem history_fire (m : Machine) (id : String) :
    (awaitFire m id).history = m.history := by
  rcases awaitFire_spec m id with heq | heq <;> rw [heq]

theorem history_start_ok (m : Machine) (p id : String) (g : Except Unit String)
    (now dur : Nat) (m' : Machine) (job : Job)
    (h : startJob m p id g now dur = (m', Except.ok job)) :
    m'.history = m.history ++ [job.jobID] := by
  rcases startJob_spec m p id g now dur with ⟨err, heq⟩ | ⟨nid, hgen, hv, hs, hnone, heq⟩
  · rw [h] at heq; simp at heq
  · have hcomb := h.symm.trans heq
    injection hcomb with h1 h2
    injection h2 with h3
    rw [h1, h3]

theorem history_start_err (m : Machine) (p id : String) (g : Except Unit String)
    (now dur : Nat) (m' : Machine) (err : MErr)
    (h : startJob m p id g now dur = (m', Except.error err)) :
    m'.history = m.history := by
  rcases startJob_spec m p id g now dur with ⟨err2, heq⟩ | ⟨nid, hgen, hv, hs, hnone, heq⟩
  · have hcomb := h.symm.trans heq
    injection hcomb with h1 h2
    rw [h1]
  · rw [h] at heq; simp at heq

theorem history_foldl (es : List Event) :
    ∀ m : Machine, (es.foldl applyEvent m).history = m.history ++ admittedIDs m es := by
  induction es with
  | nil => intro m; simp [admittedIDs]
  | cons e es ih =>
    intro m
    cases e with
    | start p id g now dur =>
      rw [List.foldl_cons]
      cases hres : startJob m p id g now dur with
      | mk m' r =>
        have happ : applyEvent m (Event.start p id g now dur) = m' := by
          simp [applyEvent, hres]
        cases r with
        | ok job =>
          rw [happ, ih m', history_start_ok m p id g now dur m' job hres]
          have hadm : admittedIDs m (Event.start p id g now dur :: es)
              = job.jobID :: admittedIDs m' es := by
            simp [admittedIDs, hres]
          rw [hadm]
          simp
        | error err =>
          rw [happ, ih m', history_start_err m p id g now dur m' err hres]
          have hadm : admittedIDs m (Event.start p id g now dur :: es)
              = admittedIDs m' es := by
            simp [admittedIDs, hres]
          rw [hadm]
    | retrieve id now =>
      rw [List.foldl_cons, ih (applyEvent m (Event.retrieve id now))]
      rw [show (applyEvent m (Event.retrieve id now)).history = m.history from
        history_retrieve m id now]
      rfl
    | fire id tf =>
      rw [List.foldl_cons, ih (applyEvent m (Event.fire id tf))]
      rw [show (applyEvent m (Event.fire id tf)).history = m.history from
        history_fire m id]
      rfl

theorem filterMap_findJob_map_id (jobs : List (String × Job))
    (hkm : ∀ p ∈ jobs, (p : String × Job).2.jobID = p.1) :
    ∀ l : List String, (∀ id ∈ l, (findJob jobs id).isSome = true) →
      (l.filterMap (findJob jobs)).map Job.jobID = l := by
  intro l
  induction l with
  | nil => intro _; rfl
  | cons a l ih =>
    intro hall
    have ha := hall a (List.mem_cons_self _ _)
    cases hja : findJob jobs a with
    | none => rw [hja] at ha; simp at ha
    | some j =>
      rw [List.filterMap_cons]
      simp only [hja]
      rw [List.map_cons]
      have hid : j.jobID = a := hkm (a, j) (findJob_eq_some_mem hja)
      rw [hid, ih (fun x hx => hall x (List.mem_cons_of_mem _ hx))]

/-- C6: at every point of every interaction sequence, History returns
exactly one snapshot per successful Admit, in admission order — its
identifiers are exactly the successfully admitted identifiers in order,
and in particular its length is the number of successful Admits —
independently of any completion or retrieval that happened. -/
theorem historyMatchesAdmissions (es : List Event) :
    (historyJobs (runE es)).map Job.jobID = admittedIDs initMachine es ∧
    (historyJobs (runE es)).length = (admittedIDs initMachine es).length := by
  have h1 : (historyJobs (runE es)).map Job.jobID = (runE es).history := by
    unfold historyJobs
    exact filterMap_findJob_map_id _ (basicInv_runE es).keyMatches _
      (basicInv_runE es).histFound
  have h2 : (runE es).history = admittedIDs initMachine es := by
    have h0 := history_foldl es initMachine
    simpa [initMachine] using h0
  refine ⟨h1.trans h2, ?_⟩
  rw [← h1.trans h2]
  exact (List.length_map _ _).symm

theorem startJob_not_available (m : Machine) (hs : m.state ≠ StateAvailable)
    (p id : String) (g : Except Unit String) (now dur : Nat) :
    startJob m p id g now dur
      = (m, Except.error
          (if productValid p then MErr.machineBusy
           else MErr.unsupportedProduct)) := by
  unfold startJob
  by_cases hv : productValid p = false
  · rw [if_pos hv, hv]
    simp
  · rw [if_neg hv, if_neg hs]
    have hv' : productValid p = true := by
      revert hv; cases productValid p <;> simp
    rw [hv']
    simp

theorem retrieveJob_success (m : Machine) (id : String) (now : Nat) (job : Job)
    (hfind : findJob m.jobs id = some job) (hnone : job.jobRetrieved = none)
    (hready : job.jobReady ≤ now) :
    retrieveJob m id now
      = ((if m.currentJob = id then
            { m with jobs := setRetrieved m.jobs id now, currentJob := "",
                     state := StateAvailable }
          else { m with jobs := setRetrieved m.jobs id now }),
         Except.ok { job with jobRetrieved := some now }) := by
  unfold retrieveJob
  rw [hfind]
  dsimp only
  rw [if_neg (by simp [hnone]), if_neg (Nat.not_lt.mpr hready)]
  by_cases hc : m.currentJob = id <;> simp [hc]

/-- C3: for a job present after any well-formed timed trace (all event
times ≤ `t`) and a retrieval at a not-earlier time `now`: (a) if `now`
is strictly before the job's Ready-at, Retrieve fails with NotReady and
changes nothing; (b) once Ready-at has passed, the first Retrieve (the
job not yet retrieved) succeeds and stamps Retrieved-at = `now`, and
(c) every subsequent Retrieve of the same identifier fails with
AlreadyRetrieved and changes nothing. -/
theorem retrieveLifecycle (es : List Event) (t now : Nat) (id : String) (job : Job)
    (hok : traceOk es t = true) (htn : t ≤ now)
    (hfind : findJob (runE es).jobs id = some job) :
    (now < job.jobReady →
       retrieveJob (runE es) id now = (runE es, Except.error MErr.jobNotReady)) ∧
    (job.jobReady ≤ now → job.jobRetrieved = none →
       (retrieveJob (runE es) id now).2
           = Except.ok { job with jobRetrieved := some now } ∧
       (∀ later : Nat,
          retrieveJob ((retrieveJob (runE es) id now).1) id later
            = ((retrieveJob (runE es) id now).1,
               Except.error MErr.jobAlreadyRetrieved))) := by
  constructor
  · intro hnow
    have hret : job.jobRetrieved = none := by
      cases hjr : job.jobRetrieved with
      | none => rfl
      | some tr =>
        exfalso
        have h1 : tr ≤ t :=
          stampsLE_runE es t hok (id, job) (findJob_eq_some_mem hfind) tr hjr
        have h2 : job.jobReady ≤ tr :=
          (basicInv_runE es).retrievedReady (id, job) (findJob_eq_some_mem hfind)
            tr hjr
        omega
    unfold retrieveJob
    rw [hfind]
    dsimp only
    rw [if_neg (by simp [hret]), if_pos hnow]
  · intro hready hnone
    have hmain := retrieveJob_success (runE es) id now job hfind hnone hready
    have hjobs : ((retrieveJob (runE es) id now).1).jobs
        = setRetrieved (runE es).jobs id now := by
      rw [hmain]
      by_cases hc : (runE es).currentJob = id <;> simp [hc]
    refine ⟨by rw [hmain], ?_⟩
    intro later
    obtain ⟨m1, hm1⟩ : ∃ m1, (retrieveJob (runE es) id now).1 = m1 := ⟨_, rfl⟩
    rw [hm1] at hjobs
    have hfind2 : findJob m1.jobs id
        = some { job with jobRetrieved := some now } := by
      rw [hjobs, findJob_setRetrieved_self, hfind]
      rfl
    rw [hm1]
    unfold retrieveJob
    rw [hfind2]
    dsimp only
    rw [if_pos (by simp)]

/-- Witness for C3: retrieving a 30-second job 10 time units in fails
with NotReady. -/
theorem retrieveLifecycleWitness :
    retrieveJob (runE [Event.start "ESPRESSO" "j1" (Except.ok "g") 0 30]) "j1" 10
      = (runE [Event.start "ESPRESSO" "j1" (Except.ok "g") 0 30],
         Except.error MErr.jobNotReady) :=
  (retrieveLifecycle [Event.start "ESPRESSO" "j1" (Except.ok "g") 0 30] 0 10 "j1"
    { jobID := "j1", product := "ESPRESSO", jobStarted := 0, jobReady := 30,
      jobRetrieved := none }
    (by decide) (by decide) (by decide)).1 (by decide)

/-- C4 counterexample: Admit(KAKAO, "job-1") immediately followed by
Admit(KAKAO, "job-1") — the second call fails with machineBusy, not
with the identifier-conflict error, because the resource-state check
precedes the identifier-conflict check. -/
theorem duplicateAdmitBusyCounterexample :
    (startJob initMachine "KAKAO" "job-1" (Except.ok "g") 0 30).2
      = Except.ok { jobID := "job-1", product := "KAKAO", jobStarted := 0,
                    jobReady := 30, jobRetrieved := none } ∧
    startJob (runE [Event.start "KAKAO" "job-1" (Except.ok "g") 0 30])
        "KAKAO" "job-1" (Except.ok "g") 1 30
      = (runE [Event.start "KAKAO" "job-1" (Except.ok "g") 0 30],
         Except.error MErr.machineBusy) ∧
    MErr.machineBusy ≠ MErr.jobIDExists := by
  refine ⟨by decide, by decide, by decide⟩

/-- C4 (amended): after a successful Admit with a caller-supplied
identifier, an immediate duplicate Admit fails with machineBusy (the
resource-state check runs before the identifier-conflict check); once
the first job has been retrieved and the machine is idle again, a
duplicate Admit with the same identifier fails with the
identifier-conflict error jobIDExists. -/
theorem duplicateIdentifierConflict (m m1 : Machine) (p id : String)
    (g : Except Unit String) (t0 d : Nat) (job : Job) (hid : id ≠ "")
    (h1 : startJob m p id g t0 d = (m1, Except.ok job)) :
    (∀ (p2 : String) (g2 : Except Unit String) (t2 d2 : Nat),
        startJob m1 p2 id g2 t2 d2
          = (m1, Except.error
              (if productValid p2 then MErr.machineBusy
               else MErr.unsupportedProduct))) ∧
    (∀ tr : Nat, job.jobReady ≤ tr →
       ∀ (p2 : String) (g2 : Except Unit String) (t2 d2 : Nat),
         productValid p2 = true →
         startJob ((retrieveJob m1 id tr).1) p2 id g2 t2 d2
           = ((retrieveJob m1 id tr).1, Except.error MErr.jobIDExists)) := by
  rcases startJob_spec m p id g t0 d with ⟨err, heq⟩ | ⟨nid, hgen, hv, hs, hnone, heq⟩
  · rw [h1] at heq
    simp at heq
  · have hcomb := h1.symm.trans heq
    injection hcomb with hA hB
    injection hB with hB
    obtain rfl : id = nid := by
      rw [if_neg hid] at hgen
      simpa using hgen
    constructor
    · intro p2 g2 t2 d2
      have hstate : m1.state ≠ StateAvailable := by
        rw [hA]
        simp
      exact startJob_not_available m1 hstate p2 id g2 t2 d2
    · intro tr htr p2 g2 t2 d2 hp2
      have hfind1 : findJob m1.jobs id = some job := by
        rw [hA, hB]
        simp [findJob]
      have hnone1 : job.jobRetrieved = none := by
        rw [hB]
      have hsucc := retrieveJob_success m1 id tr job hfind1 hnone1 htr
      have hcur : m1.currentJob = id := by rw [hA]
      rw [if_pos hcur] at hsucc
      have hm2 : (retrieveJob m1 id tr).1
          = { m1 with jobs := setRetrieved m1.jobs id tr, currentJob := "",
                      state := StateAvailable } := by
        rw [hsucc]
      rw [hm2]
      unfold startJob
      rw [if_neg (by simp [hp2]), if_pos rfl]
      rw [if_neg hid]
      have hfind2 : findJob (setRetrieved m1.jobs id tr) id
          = some { job with jobRetrieved := some tr } := by
        rw [findJob_setRetrieved_self, hfind1]
        rfl
      dsimp only
      rw [hfind2]
      rfl

/-- Witness for C4's amended statement: the KAKAO/job-1 scenario,
instantiating the immediate-duplicate half. -/
theorem duplicateIdentifierConflictWitness :
    startJob { state := StateBrewing,
               jobs := [("job-1", { jobID := "job-1", product := "KAKAO",
                                    jobStarted := 0, jobReady := 30,
                                    jobRetrieved := none })],
               history := ["job-1"], currentJob := "job-1" }
        "KAKAO" "job-1" (Except.ok "g") 1 30
      = ({ state := StateBrewing,
           jobs := [("job-1", { jobID := "job-1", product := "KAKAO",
                                jobStarted := 0, jobReady := 30,
                                jobRetrieved := none })],
           history := ["job-1"], currentJob := "job-1" },
         Except.error
           (if productValid "KAKAO" then MErr.machineBusy
            else MErr.unsupportedProduct)) :=
  (duplicateIdentifierConflict initMachine
    { state := StateBrewing,
      jobs := [("job-1", { jobID := "job-1", product := "KAKAO",
                           jobStarted := 0, jobReady := 30,
                           jobRetrieved := none })],
      history := ["job-1"], currentJob := "job-1" }
    "KAKAO" "job-1" (Except.ok "g") 0 30
    { jobID := "job-1", product := "KAKAO", jobStarted := 0, jobReady := 30,
      jobRetrieved := none }
    (by decide) (by decide)).1 "KAKAO" (Except.ok "g") 1 30

theorem activeJob_step (m : Machine) (job : Job) (e : Event)
    (hA : ActiveJob m job)
    (hstate : m.state = StateBrewing ∨ m.state = StateBlocked)
    (hspan : spanEvent job.jobID job.jobReady e = true) :
    ActiveJob (applyEvent m e) job ∧
    (applyEvent m e).state
      = (if isFireOf job.jobID e then StateBlocked else m.state) := by
  obtain ⟨hcur, hret, hfind, hothers⟩ := hA
  cases e with
  | start p id g now dur =>
    have hs : m.state ≠ StateAvailable := by
      rcases hstate with h | h <;> rw [h] <;> simp
    have h1 : applyEvent m (Event.start p id g now dur) = m := by
      have heq := startJob_not_available m hs p id g now dur
      simp [applyEvent, heq]
    rw [h1]
    exact ⟨⟨hcur, hret, hfind, hothers⟩, by simp [isFireOf]⟩
  | retrieve id now =>
    have hspan' : id ≠ job.jobID ∨ now < job.jobReady := by
      simpa [spanEvent] using hspan
    have h1 : applyEvent m (Event.retrieve id now) = m := by
      show (retrieveJob m id now).1 = m
      by_cases hij : id = job.jobID
      · have hnow : now < job.jobReady := by
          rcases hspan' with h | h
          · exact absurd hij h
          · exact h
        unfold retrieveJob
        rw [hij, hfind]
        dsimp only
        rw [if_neg (by simp [hret]), if_pos hnow]
      · cases hfi : findJob m.jobs id with
        | none => unfold retrieveJob; rw [hfi]
        | some j =>
          have hj : j.jobRetrieved.isSome = true :=
            hothers (id, j) (findJob_eq_some_mem hfi) hij
          unfold retrieveJob
          rw [hfi]
          dsimp only
          rw [if_pos hj]
    rw [h1]
    exact ⟨⟨hcur, hret, hfind, hothers⟩, by simp [isFireOf]⟩
  | fire id tf =>
    by_cases hij : id = job.jobID
    · have h1 : applyEvent m (Event.fire id tf) = { m with state := StateBlocked } := by
        show awaitFire m id = _
        unfold awaitFire
        rw [hij, hfind]
        dsimp only
        rw [if_neg (by simp [hret])]
      rw [h1]
      exact ⟨⟨hcur, hret, hfind, hothers⟩, by simp [isFireOf, hij]⟩
    · have h1 : applyEvent m (Event.fire id tf) = m := by
        show awaitFire m id = m
        cases hfi : findJob m.jobs id with
        | none => unfold awaitFire; rw [hfi]
        | some j =>
          have hj : j.jobRetrieved.isSome = true :=
            hothers (id, j) (findJob_eq_some_mem hfi) hij
          unfold awaitFire
          rw [hfi]
          dsimp only
          rw [if_pos hj]
      rw [h1]
      exact ⟨⟨hcur, hret, hfind, hothers⟩, by simp [isFireOf, hij]⟩

theorem activeJob_foldl (es : List Event) :
    ∀ (m : Machine) (job : Job), ActiveJob m job →
      (m.state = StateBrewing ∨ m.state = StateBlocked) →
      (∀ e ∈ es, spanEvent job.jobID job.jobReady e = true) →
      ActiveJob (es.foldl applyEvent m) job ∧
      (es.foldl applyEvent m).state
        = (if es.any (isFireOf job.jobID) then StateBlocked else m.state) := by
  induction es with
  | nil => intro m job hA _ _; exact ⟨hA, by simp⟩
  | cons e es ih =>
    intro m job hA hstate hall
    obtain ⟨hA', hst'⟩ :=
      activeJob_step m job e hA hstate (hall e (List.mem_cons_self _ _))
    have hstate' : (applyEvent m e).state = StateBrewing ∨
        (applyEvent m e).state = StateBlocked := by
      rw [hst']
      by_cases hf : isFireOf job.jobID e = true
      · rw [if_pos hf]; right; rfl
      · rw [if_neg hf]; exact hstate
    obtain ⟨hA2, hst2⟩ := ih (applyEvent m e) job hA' hstate'
      (fun x hx => hall x (List.mem_cons_of_mem _ hx))
    refine ⟨hA2, ?_⟩
    rw [List.foldl_cons, hst2, hst', List.any_cons]
    cases hf : isFireOf job.jobID e <;> simp [hf]

/-- C1 (amended): after a successful Admit from any reachable idle
state, the returned job's Ready-at is admission time plus brew duration
and the machine is Brewing tracking it.  Along any continuation made of
span events (admission attempts, retrievals of other jobs or
too-early retrievals of this one, and timer firings — this job's own
timer firing at its Ready-at time, which is when the sleep ends), the
status is Brewing until the job's timer fires and ReadyUnretrieved
(Blocked) from then on; every Admit of a supported product anywhere in
the span fails with machineBusy and changes nothing (an unsupported
product fails with UnsupportedProduct instead); and a Retrieve of the
job at or after Ready-at succeeds, stamps it, and returns the machine
to Idle. -/
theorem admissionLifecycle (es0 : List Event) (p id0 : String)
    (g : Except Unit String) (t0 d : Nat) (m1 : Machine) (job : Job)
    (hgen : traceGenOk es0 = true)
    (h1 : startJob (runE es0) p id0 g t0 d = (m1, Except.ok job)) :
    (job.jobReady = t0 + d ∧ status m1 = StateBrewing ∧
      m1.currentJob = job.jobID) ∧
    (∀ es : List Event,
      (∀ e ∈ es, spanEvent job.jobID job.jobReady e = true) →
      (status (es.foldl applyEvent m1)
          = (if es.any (isFireOf job.jobID) then StateBlocked
             else StateBrewing)) ∧
      (∀ (p2 id2 : String) (g2 : Except Unit String) (t2 d2 : Nat),
          productValid p2 = true →
          startJob (es.foldl applyEvent m1) p2 id2 g2 t2 d2
            = (es.foldl applyEvent m1, Except.error MErr.machineBusy)) ∧
      (∀ tr : Nat, job.jobReady ≤ tr →
          (retrieveJob (es.foldl applyEvent m1) job.jobID tr).2
              = Except.ok { job with jobRetrieved := some tr } ∧
          status ((retrieveJob (es.foldl applyEvent m1) job.jobID tr).1)
              = StateAvailable)) := by
  rcases startJob_spec (runE es0) p id0 g t0 d with ⟨err, heq⟩ |
    ⟨nid, hgenE, hv, hs, hnone, heq⟩
  · rw [h1] at heq
    simp at heq
  · have hcomb := h1.symm.trans heq
    injection hcomb with hA hB
    injection hB with hB
    have hready : job.jobReady = t0 + d := by rw [hB]
    have hm1state : m1.state = StateBrewing := by rw [hA]
    have hcur : m1.currentJob = job.jobID := by rw [hA, hB]
    have hG := genInv_runE es0 hgen
    have hActive : ActiveJob m1 job := by
      refine ⟨hcur, by rw [hB], ?_, ?_⟩
      · rw [hA, hB]
        simp [findJob]
      · intro q hq hne
        rw [hA] at hq
        rcases List.mem_cons.mp hq with rfl | hq'
        · exact absurd (by rw [hB]) hne
        · have hclear : (runE es0).currentJob = "" := hG.availClear hs
          refine hG.othersRetrieved q hq' ?_
          rw [hclear]
          exact hG.keysNonempty q hq'
    refine ⟨⟨hready, hm1state, hcur⟩, ?_⟩
    intro es hspan
    obtain ⟨hA2, hst2⟩ :=
      activeJob_foldl es m1 job hActive (Or.inl hm1state) hspan
    have hstateM : (es.foldl applyEvent m1).state
        = (if es.any (isFireOf job.jobID) then StateBlocked
           else StateBrewing) := by
      rw [hst2, hm1state]
    refine ⟨hstateM, ?_, ?_⟩
    · intro p2 id2 g2 t2 d2 hp2
      have hns : (es.foldl applyEvent m1).state ≠ StateAvailable := by
        rw [hstateM]
        cases hany : es.any (isFireOf job.jobID) <;> simp [hany]
      have hbusy := startJob_not_available (es.foldl applyEvent m1) hns p2 id2 g2 t2 d2
      rw [hp2] at hbusy
      simpa using hbusy
    · intro tr htr
      obtain ⟨hcur2, hret2, hfind2, hothers2⟩ := hA2
      have hsucc := retrieveJob_success (es.foldl applyEvent m1) job.jobID tr job
        hfind2 hret2 htr
      rw [if_pos hcur2] at hsucc
      exact ⟨by rw [hsucc], by rw [hsucc]; rfl⟩

/-- Witness for C1's amended statement: one admission of KAKAO at time
0 with duration 30, then the job's timer fires at 30 and the status is
Blocked. -/
theorem admissionLifecycleWitness :
    status ([Event.fire "job-1" 30].foldl applyEvent
        { state := StateBrewing,
          jobs := [("job-1", { jobID := "job-1", product := "KAKAO",
                               jobStarted := 0, jobReady := 30,
                               jobRetrieved := none })],
          history := ["job-1"], currentJob := "job-1" })
      = (if [Event.fire "job-1" 30].any
            (isFireOf ({ jobID := "job-1", product := "KAKAO",
                         jobStarted := 0, jobReady := 30,
                         jobRetrieved := none } : Job).jobID)
         then StateBlocked else StateBrewing) :=
  ((admissionLifecycle [] "KAKAO" "job-1" (Except.ok "g") 0 30
      { state := StateBrewing,
        jobs := [("job-1", { jobID := "job-1", product := "KAKAO",
                             jobStarted := 0, jobReady := 30,
                             jobRetrieved := none })],
        history := ["job-1"], currentJob := "job-1" }
      { jobID := "job-1", product := "KAKAO", jobStarted := 0,
        jobReady := 30, jobRetrieved := none }
      (by decide) (by decide)).2 [Event.fire "job-1" 30] (by decide)).1

/-- C1 counterexample: while the machine is Brewing, an Admit of the
unsupported product "TEA" fails with UnsupportedProduct, not with
machineBusy — so not every Admit during the span fails with
ResourceBusy. -/
theorem admitDuringSpanNotBusyCounterexample :
    status (runE [Event.start "KAKAO" "job-1" (Except.ok "g") 0 30])
      = StateBrewing ∧
    (startJob (runE [Event.start "KAKAO" "job-1" (Except.ok "g") 0 30])
        "TEA" "" (Except.ok "h") 1 30).2
      = Except.error MErr.unsupportedProduct ∧
    MErr.unsupportedProduct ≠ MErr.machineBusy :=
  ⟨by decide, by decide, by decide⟩

theorem hexDigit_isHex : ∀ n : Nat, n < 16 → isHexChar (hexDigit n) = true := by
  decide

theorem hexByte_length (n : Nat) : (hexByte n).length = 2 := rfl

theorem hexByte_chars (n : Nat) : ∀ c ∈ (hexByte n).data, isHexChar c = true := by
  intro c hc
  rcases List.mem_cons.mp hc with rfl | hc'
  · exact hexDigit_isHex _ (by omega)
  · rcases List.mem_cons.mp hc' with rfl | hc''
    · exact hexDigit_isHex _ (by omega)
    · simp at hc''

theorem hexChars_append {s t : String}
    (h1 : ∀ c ∈ s.data, isHexChar c = true)
    (h2 : ∀ c ∈ t.data, isHexChar c = true) :
    ∀ c ∈ (s ++ t).data, isHexChar c = true := by
  intro c hc
  rw [String.data_append] at hc
  rcases List.mem_append.mp hc with h | h
  · exact h1 c h
  · exact h2 c h

theorem hexDigit_version :
    ∀ a : Nat, a < 16 → hexDigit (Nat.lor a 64 % 256 / 16) = '4' := by
  decide

theorem hexDigit_variant :
    ∀ a : Nat, a < 64 →
      (hexDigit (Nat.lor a 128 % 256 / 16) = '8' ∨
       hexDigit (Nat.lor a 128 % 256 / 16) = '9' ∨
       hexDigit (Nat.lor a 128 % 256 / 16) = 'a' ∨
       hexDigit (Nat.lor a 128 % 256 / 16) = 'b') := by
  decide

theorem generateJobID_length (b : Fin 16 → Nat) :
    (generateJobID b).length = 36 := rfl

theorem genOk_generateJobID (b : Fin 16 → Nat) :
    genOk (Except.ok (generateJobID b)) = true := by
  simp only [genOk, Bool.not_eq_true']
  rw [decide_eq_false_iff_not]
  intro h
  have h36 := generateJobID_length b
  rw [h] at h36
  simp at h36

/-- C7 (amended): an identifier generated from any 16-byte entropy read
is a valid version-4 UUID string — 36 characters, five dash-separated
lower-case hex groups of lengths 8/4/4/4/12, the third group starting
with the version digit '4' and the fourth with a variant digit in
8/9/a/b.  Freshness is not guaranteed by generation: if the generated
identifier already names a job, the Admit that generated it fails with
the identifier-conflict error instead of creating a job. -/
theorem generatedIdentifierFormat (b : Fin 16 → Nat) :
    (generateJobID b).length = 36 ∧
    (∃ s1 s2 s3 s4 s5 : String,
      generateJobID b = s1 ++ "-" ++ s2 ++ "-" ++ s3 ++ "-" ++ s4 ++ "-" ++ s5 ∧
      s1.length = 8 ∧ s2.length = 4 ∧ s3.length = 4 ∧ s4.length = 4 ∧
      s5.length = 12 ∧
      (∀ c ∈ (((s1 ++ s2) ++ s3) ++ s4 ++ s5).data, isHexChar c = true) ∧
      s3.data.head? = some '4' ∧
      (∃ c, s4.data.head? = some c ∧
        (c = '8' ∨ c = '9' ∨ c = 'a' ∨ c = 'b'))) ∧
    (∀ (m : Machine) (p : String) (now dur : Nat),
      productValid p = true → m.state = StateAvailable →
      (findJob m.jobs (generateJobID b)).isSome = true →
      startJob m p "" (Except.ok (generateJobID b)) now dur
        = (m, Except.error MErr.jobIDExists)) := by
  refine ⟨generateJobID_length b, ?_, ?_⟩
  · refine ⟨hexByte (b 0) ++ hexByte (b 1) ++ hexByte (b 2) ++ hexByte (b 3),
      hexByte (b 4) ++ hexByte (b 5),
      hexByte (Nat.lor (Nat.land (b 6) 15) 64) ++ hexByte (b 7),
      hexByte (Nat.lor (Nat.land (b 8) 63) 128) ++ hexByte (b 9),
      hexByte (b 10) ++ hexByte (b 11) ++ hexByte (b 12) ++ hexByte (b 13) ++
        hexByte (b 14) ++ hexByte (b 15),
      rfl, rfl, rfl, rfl, rfl, rfl, ?_, ?_, ?_⟩
    · refine hexChars_append (hexChars_append (hexChars_append
        (hexChars_append ?_ ?_) ?_) ?_) ?_
      · exact hexChars_append (hexChars_append (hexChars_append
          (hexByte_chars _) (hexByte_chars _)) (hexByte_chars _)) (hexByte_chars _)
      · exact hexChars_append (hexByte_chars _) (hexByte_chars _)
      · exact hexChars_append (hexByte_chars _) (hexByte_chars _)
      · exact hexChars_append (hexByte_chars _) (hexByte_chars _)
      · exact hexChars_append (hexChars_append (hexChars_append
          (hexChars_append (hexChars_append (hexByte_chars _) (hexByte_chars _))
            (hexByte_chars _)) (hexByte_chars _)) (hexByte_chars _))
          (hexByte_chars _)
    · have h6 : Nat.land (b 6) 15 < 16 := Nat.lt_succ_of_le Nat.and_le_right
      have hh : (hexByte (Nat.lor (Nat.land (b 6) 15) 64) ++
          hexByte (b 7)).data.head?
          = some (hexDigit (Nat.lor (Nat.land (b 6) 15) 64 % 256 / 16)) := rfl
      rw [hh, hexDigit_version _ h6]
    · have h8 : Nat.land (b 8) 63 < 64 := Nat.lt_succ_of_le Nat.and_le_right
      exact ⟨hexDigit (Nat.lor (Nat.land (b 8) 63) 128 % 256 / 16), rfl,
        hexDigit_variant _ h8⟩
  · intro m p now dur hp hA hex
    unfold startJob
    rw [if_neg (by simp [hp]), if_pos hA]
    rw [if_pos rfl]
    dsimp only
    rw [if_pos hex]

/-- C7 counterexample: a previously admitted (and retrieved) job can
carry exactly the identifier the generator later produces — here the
all-zero entropy read — and the Admit that generates it then fails with
jobIDExists on an otherwise idle machine, so a generated identifier is
not always previously unused. -/
theorem generatedIdentifierCollision :
    (runE [Event.start "COFFEE" (generateJobID (fun _ => 0)) (Except.ok "g") 0 20,
           Event.retrieve (generateJobID (fun _ => 0)) 20]).state
      = StateAvailable ∧
    (startJob
        (runE [Event.start "COFFEE" (generateJobID (fun _ => 0)) (Except.ok "g") 0 20,
               Event.retrieve (generateJobID (fun _ => 0)) 20])
        "COFFEE" "" (Except.ok (generateJobID (fun _ => 0))) 21 20).2
      = Except.error MErr.jobIDExists := by
  refine ⟨by decide, by decide⟩

/-- Witness for C7's amended statement: the collision branch applied to
the all-zero entropy read and a machine that already has the resulting
identifier. -/
theorem generatedIdentifierFormatWitness :
    startJob
        (runE [Event.start "COFFEE" (generateJobID (fun _ => 0)) (Except.ok "g") 0 20,
               Event.retrieve (generateJobID (fun _ => 0)) 20])
        "COFFEE" "" (Except.ok (generateJobID (fun _ => 0))) 21 20
      = (runE [Event.start "COFFEE" (generateJobID (fun _ => 0)) (Except.ok "g") 0 20,
               Event.retrieve (generateJobID (fun _ => 0)) 20],
         Except.error MErr.jobIDExists) :=
  (generatedIdentifierFormat (fun _ => 0)).2.2
    (runE [Event.start "COFFEE" (generateJobID (fun _ => 0)) (Except.ok "g") 0 20,
           Event.retrieve (generateJobID (fun _ => 0)) 20])
    "COFFEE" 21 20 (by decide) (by decide) (by decide)

example : runE [] = initMachine := rfl

example :
    (startJob initMachine "KAKAO" "job-1" (Except.ok "g") 0 30).2
      = Except.ok { jobID := "job-1", product := "KAKAO", jobStarted := 0,
                    jobReady := 30, jobRetrieved := none } := by decide

example :
    (startJob (runE [Event.start "KAKAO" "job-1" (Except.ok "g") 0 30])
        "KAKAO" "job-1" (Except.ok "g") 1 30).2
      = Except.error MErr.machineBusy := by decide

example :
    (retrieveJob (runE [Event.start "KAKAO" "job-1" (Except.ok "g") 0 30])
        "job-1" 12).2 = Except.error MErr.jobNotReady := by decide

example :
    (runE [Event.start "KAKAO" "job-1" (Except.ok "g") 0 30,
           Event.fire "job-1" 30]).state = StateBlocked := by decide

example :
    (runE [Event.start "KAKAO" "job-1" (Except.ok "g") 0 30,
           Event.fire "job-1" 30,
           Event.retrieve "job-1" 31]).state = StateAvailable := by decide

end CoffeePot
